import Mathlib

/-!
# Verification of the B+ tree in `src/src/storage/index/b_plus_tree.cpp`

A shallow embedding of the B+ tree implementation. Keys, values and page ids
are modelled as `Int` (the C++ code is generic over a fixed-width key type with
a three-way comparator; the comparator is modelled by the order on `Int`, so
`comparator(a, b) == 0` becomes `a = b`, `== 1` becomes `b < a`, `!= 1` becomes
`a ≤ b`). Page slot arrays are `List Int` of length equal to the page capacity;
a freshly allocated page's bytes are uninitialized, which is modelled by the
state field `junk` (the value every slot of a fresh page holds, and the value
an out-of-bounds array read returns). The buffer pool is modelled by an
association list from page ids to node pages; fetching a page id that has
never been allocated (in particular `INVALID_PAGE_ID`) fails, which every
state-level operation reports by returning `none`.

All loops of the source are embedded as fuel-indexed structural recursions so
that the whole model is executable by the kernel; every call site passes fuel
that exceeds the number of iterations the source loop performs.
-/

namespace BPlus

def INVALID : Int := -1

/-- `KeyAt` / `ValueAt` on a page's slot array: in-bounds reads return the
stored slot, out-of-bounds reads return the uninitialized-memory value
`junk`. -/
def keyAtD (junk : Int) (ks : List Int) (i : Int) : Int :=
  if 0 ≤ i ∧ i < ks.length then ks.getD i.toNat 0 else junk

/-- `SetKeyAt` / `SetValueAt` on a page's slot array; a write outside the
array is dropped (no call evaluated by a theorem below writes out of
bounds). -/
def setSlot (xs : List Int) (i : Int) (v : Int) : List Int :=
  if 0 ≤ i ∧ i < xs.length then xs.set i.toNat v else xs

/-- The shared binary-search loop of both `BinaryFind` overloads
(`b_plus_tree.cpp` lines 304–313 and 326–335):
`while (l < r) { mid = (l+r+1)>>1; if (cmp(KeyAt(mid),key) != 1) l = mid; else r = mid-1; }`.
`f` is the page's `KeyAt`. The shift `>>1` on a nonnegative int is division
by two. The loop is fuel-indexed; it runs at most `r - l` times, and every
caller passes more fuel than that. -/
def bfLoop (f : Int → Int) (key : Int) : Nat → Int → Int → Int
  | 0, _, r => r
  | fuel+1, l, r =>
    if l < r then
      if f ((l + r + 1) / 2) ≤ key then bfLoop f key fuel ((l + r + 1) / 2) r
      else bfLoop f key fuel l ((l + r + 1) / 2 - 1)
    else r

/-- `BPlusTree::BinaryFind(const LeafPage*, const KeyType&)`
(lines 301–320): `l = 0`, `r = size - 1`, run the loop, then
`if (r >= 0 && cmp(KeyAt(r), key) == 1) r = -1`. -/
def binaryFindLeaf (f : Int → Int) (size key : Int) : Int :=
  let r := bfLoop f key (size.toNat + 1) 0 (size - 1)
  if 0 ≤ r ∧ key < f r then -1 else r

/-- `BPlusTree::BinaryFind(const InternalPage*, const KeyType&)`
(lines 323–342): `l = 1`, `r = size - 1`, run the loop, then
`if (r == -1 || cmp(KeyAt(r), key) == 1) r = 0`. -/
def binaryFindInternal (f : Int → Int) (size key : Int) : Int :=
  let r := bfLoop f key (size.toNat + 1) 1 (size - 1)
  if r = -1 ∨ key < f r then 0 else r

/-- A leaf node page: key and value slot arrays (of length `max_size`),
`size`, `max_size`, and `next_page_id`. -/
structure LeafNode where
  keys : List Int
  vals : List Int
  size : Int
  maxSize : Int
  next : Int
deriving DecidableEq, Repr

/-- An internal node page: key and child-pointer slot arrays (of length
`max_size`), `size` and `max_size`. Slot 0's key is the sentinel. -/
structure InternalNode where
  keys : List Int
  children : List Int
  size : Int
  maxSize : Int
deriving DecidableEq, Repr

inductive BNode where
  | leaf : LeafNode → BNode
  | internal : InternalNode → BNode
deriving DecidableEq, Repr

def BNode.size : BNode → Int
  | .leaf L => L.size
  | .internal I => I.size

def BNode.maxSize : BNode → Int
  | .leaf L => L.maxSize
  | .internal I => I.maxSize

def BNode.isLeaf : BNode → Bool
  | .leaf _ => true
  | .internal _ => false

/-- The tree state: the pages owned by the buffer pool (association list from
page id to node), the next page id `NewPageGuarded` will hand out, the header
page's `root_page_id_`, the uninitialized-memory value `junk`, and the two
capacities `leaf_max_size_` / `internal_max_size_` passed at construction. -/
structure TreeState where
  pages : List (Int × BNode)
  nextPageId : Int
  rootPageId : Int
  junk : Int
  leafMax : Int
  internalMax : Int
deriving DecidableEq, Repr

def lookupPage : List (Int × BNode) → Int → Option BNode
  | [], _ => none
  | (p, nd) :: rest, pid => if p = pid then some nd else lookupPage rest pid

/-- `bpm_->FetchPageRead` / `FetchPageWrite`: fetching a page id that was
never allocated (in particular `INVALID_PAGE_ID`) fails. -/
def fetchPage (st : TreeState) (pid : Int) : Option BNode :=
  lookupPage st.pages pid

def upsert : List (Int × BNode) → Int → BNode → List (Int × BNode)
  | [], pid, nd => [(pid, nd)]
  | (p, old) :: rest, pid, nd =>
    if p = pid then (p, nd) :: rest else (p, old) :: upsert rest pid nd

def setPage (st : TreeState) (pid : Int) (nd : BNode) : TreeState :=
  { st with pages := upsert st.pages pid nd }

/-- Modelled from the spec: `LeafPage::Init` (the page-class headers are not
under `src/`; §4.1 specifies `init(max_size)` resetting the header). It sets
`size = 0`, `max_size = leaf_max_size_`, `next = INVALID`; the slot arrays
keep the fresh page's uninitialized bytes, i.e. `junk` everywhere. -/
def leafInit (st : TreeState) : LeafNode :=
  { keys := List.replicate st.leafMax.toNat st.junk
    vals := List.replicate st.leafMax.toNat st.junk
    size := 0
    maxSize := st.leafMax
    next := INVALID }

/-- Modelled from the spec: `InternalPage::Init` (see `leafInit`). -/
def internalInit (st : TreeState) : InternalNode :=
  { keys := List.replicate st.internalMax.toNat st.junk
    children := List.replicate st.internalMax.toNat st.junk
    size := 0
    maxSize := st.internalMax }

/-- A freshly allocated page reinterpreted as an `InternalPage` *without*
calling `Init` — this is what the root-growth branch of `Insert`
(lines 159–162) does: every header field and every slot is uninitialized
memory. -/
def internalRaw (st : TreeState) : InternalNode :=
  { keys := List.replicate st.internalMax.toNat st.junk
    children := List.replicate st.internalMax.toNat st.junk
    size := st.junk
    maxSize := st.junk }

/-- The shift loop shared by both `MoveRight` overloads (lines 207–210 and
216–219): `for (i = size-1; i > pos; i--) { KeyAt(i) = KeyAt(i-1); ValueAt(i) = ValueAt(i-1); }`,
threading both slot arrays. -/
def moveLoop (junk : Int) (pos : Int) :
    Nat → List Int → List Int → Int → List Int × List Int
  | 0, ks, vs, _ => (ks, vs)
  | fuel+1, ks, vs, i =>
    if pos < i then
      moveLoop junk pos fuel
        (setSlot ks i (keyAtD junk ks (i-1)))
        (setSlot vs i (keyAtD junk vs (i-1))) (i-1)
    else (ks, vs)

/-- `BPlusTree::MoveRight(LeafPage*, int)` (lines 213–220). -/
def moveRightL (junk : Int) (p : LeafNode) (pos : Int) : LeafNode :=
  let sz := p.size + 1
  let kv := moveLoop junk pos ((sz - 1 - pos).toNat + 1) p.keys p.vals (sz - 1)
  { p with size := sz, keys := kv.1, vals := kv.2 }

/-- `BPlusTree::MoveRight(InternalPage*, int)` (lines 204–211). -/
def moveRightI (junk : Int) (p : InternalNode) (pos : Int) : InternalNode :=
  let sz := p.size + 1
  let kv := moveLoop junk pos ((sz - 1 - pos).toNat + 1) p.keys p.children (sz - 1)
  { p with size := sz, keys := kv.1, children := kv.2 }

/-- `BPlusTree::InsertAt(LeafPage*, const KeyType&, const ValueType&)`
(lines 283–293): binary-find `pos`, fail if `cmp(KeyAt(pos), key) == 0`
(note: `pos` is *not* checked to be nonnegative before `KeyAt(pos)` is read),
otherwise shift right from `pos+1` and store the pair there. -/
def insertAtLeaf (junk : Int) (p : LeafNode) (key value : Int) : Bool × LeafNode :=
  let pos := binaryFindLeaf (keyAtD junk p.keys) p.size key
  if keyAtD junk p.keys pos = key then (false, p)
  else
    let p2 := moveRightL junk p (pos + 1)
    (true, { p2 with keys := setSlot p2.keys (pos+1) key
                     vals := setSlot p2.vals (pos+1) value })

/-- `BPlusTree::InsertAt(InternalPage*, const KeyType&, page_id_t)`
(lines 275–281). -/
def insertAtInternal (junk : Int) (p : InternalNode) (key value : Int) : InternalNode :=
  let pos := binaryFindInternal (keyAtD junk p.keys) p.size key
  let p2 := moveRightI junk p (pos + 1)
  { p2 with keys := setSlot p2.keys (pos+1) key
            children := setSlot p2.children (pos+1) value }

/-- The copy loop shared by both `SplitPage` overloads (lines 233–238 and
253–258): `for (i = lsize; i < lpage->GetSize(); i++) { if (i > lsize) R.KeyAt(i-lsize) = L.KeyAt(i); R.ValueAt(i-lsize) = L.ValueAt(i); }`.
`lsz` is the left page's size, which the loop re-reads each iteration and
which is unchanged while it runs. Note the `i > lsize` guard: the key at
slot `lsize` is *not* copied. -/
def splitCopy (junk lsize lsz : Int) :
    Nat → List Int → List Int → List Int → List Int → Int → List Int × List Int
  | 0, _, _, rks, rvs, _ => (rks, rvs)
  | fuel+1, lks, lvs, rks, rvs, i =>
    if i < lsz then
      splitCopy junk lsize lsz fuel lks lvs
        (if lsize < i then setSlot rks (i - lsize) (keyAtD junk lks i) else rks)
        (setSlot rvs (i - lsize) (keyAtD junk lvs i)) (i+1)
    else (rks, rvs)

/-- `BPlusTree::SplitPage(LeafPage*, page_id_t&)` (lines 243–261): allocate
`R`, `Init`, `R.next = L.next`, `L.next = R_id`, `lsize = size/2`,
`rsize = size - lsize`, `mid_key = L.KeyAt(lsize)`, `R.size = rsize`, run the
copy loop, `L.size = lsize`. Returns `(mid_key, new_page_id, state)`. -/
def splitLeafPage (st : TreeState) (pid : Int) : Option (Int × Int × TreeState) :=
  match fetchPage st pid with
  | some (.leaf L) =>
    let newId := st.nextPageId
    let R1 := { leafInit st with next := L.next }
    let L1 := { L with next := newId }
    let lsize := L1.size / 2
    let rsize := L1.size - lsize
    let midKey := keyAtD st.junk L1.keys lsize
    let R2 := { R1 with size := rsize }
    let kv := splitCopy st.junk lsize L1.size ((L1.size - lsize).toNat + 1)
                L1.keys L1.vals R2.keys R2.vals lsize
    let R3 := { R2 with keys := kv.1, vals := kv.2 }
    let L2 := { L1 with size := lsize }
    some (midKey, newId,
      { st with pages := upsert (upsert st.pages pid (.leaf L2)) newId (.leaf R3)
                nextPageId := newId + 1 })
  | _ => none

/-- `BPlusTree::SplitPage(InternalPage*, page_id_t&)` (lines 225–241). -/
def splitInternalPage (st : TreeState) (pid : Int) : Option (Int × Int × TreeState) :=
  match fetchPage st pid with
  | some (.internal L) =>
    let newId := st.nextPageId
    let R1 := internalInit st
    let lsize := L.size / 2
    let rsize := L.size - lsize
    let R2 := { R1 with size := rsize }
    let midKey := keyAtD st.junk L.keys lsize
    let kv := splitCopy st.junk lsize L.size ((L.size - lsize).toNat + 1)
                L.keys L.children R2.keys R2.children lsize
    let R3 := { R2 with keys := kv.1, children := kv.2 }
    let L2 := { L with size := lsize }
    some (midKey, newId,
      { st with pages := upsert (upsert st.pages pid (.internal L2)) newId (.internal R3)
                nextPageId := newId + 1 })
  | _ => none

/-- The descent loop of `Insert` (lines 122–133): starting from the root,
push the write guard of the current page onto `write_set_`; stop at a leaf;
at an internal node, if it is safe for insert (`size < max_size - 1`) pop
everything in front of it (keeping only the current node), then descend into
the child chosen by `BinaryFind`. Returns the final `write_set_` as a list of
page ids, oldest first. -/
def buildWriteSetAux (st : TreeState) (key : Int) :
    Nat → Int → List Int → Option (List Int)
  | 0, _, _ => none
  | fuel+1, x, ws =>
    let ws2 := ws ++ [x]
    match fetchPage st x with
    | none => none
    | some (.leaf _) => some ws2
    | some (.internal nd) =>
      let ws3 := if nd.size < nd.maxSize - 1 then [x] else ws2
      buildWriteSetAux st key fuel
        (keyAtD st.junk nd.children
          (binaryFindInternal (keyAtD st.junk nd.keys) nd.size key)) ws3

def buildWriteSet (st : TreeState) (key : Int) : Option (List Int) :=
  buildWriteSetAux st key (st.pages.length + 1) st.rootPageId []

/-- The upward split cascade of `Insert` (lines 140–153):
`while (write_set_.size() > 1) { split the back page (leaf or internal);
pop it; InsertAt(parent, mid_key, right_page_id); }`. The loop performs the
split *unconditionally* — there is no fullness test on the back page. -/
def cascadeLoop : Nat → TreeState → List Int → Option (TreeState × List Int)
  | 0, _, _ => none
  | fuel+1, st, ws =>
    if ws.length > 1 then
      match ws.getLast? with
      | none => none
      | some back =>
        match fetchPage st back with
        | none => none
        | some nd =>
          let split? := match nd with
            | .leaf _ => splitLeafPage st back
            | .internal _ => splitInternalPage st back
          match split? with
          | none => none
          | some (midKey, rid, st2) =>
            let ws2 := ws.dropLast
            match ws2.getLast? with
            | none => none
            | some parent =>
              match fetchPage st2 parent with
              | some (.internal pnd) =>
                cascadeLoop fuel
                  (setPage st2 parent (.internal (insertAtInternal st2.junk pnd midKey rid)))
                  ws2
              | _ => none
    else some (st, ws)

/-- The root-growth epilogue of `Insert` (lines 155–176): if the single
remaining page of `write_set_` is full (`size == max_size`), allocate a new
root page — reinterpreted as an internal page *without* `Init` — set its size
to 2 and `child_0` to the old page, split the old page, store
`(mid_key, right_id)` at slot 1, and point the header at the new root. -/
def rootGrowth (st : TreeState) (ws : List Int) : Option TreeState :=
  match ws.getLast? with
  | none => none
  | some x =>
    match fetchPage st x with
    | none => none
    | some nd =>
      if nd.size = nd.maxSize then
        let newRootId := st.nextPageId
        let raw := { internalRaw st with size := 2 }
        let raw := { raw with children := setSlot raw.children 0 x }
        let st2 := { st with pages := upsert st.pages newRootId (.internal raw)
                             nextPageId := st.nextPageId + 1 }
        let split? := match nd with
          | .leaf _ => splitLeafPage st2 x
          | .internal _ => splitInternalPage st2 x
        match split? with
        | none => none
        | some (midKey, rid, st3) =>
          match fetchPage st3 newRootId with
          | some (.internal rt) =>
            let rt := { rt with keys := setSlot rt.keys 1 midKey }
            let rt := { rt with children := setSlot rt.children 1 rid }
            some { setPage st3 newRootId (.internal rt) with rootPageId := newRootId }
          | _ => none
      else some st

/-- `BPlusTree::Insert` (lines 100–179). Empty tree: allocate a leaf root
holding the single pair. Otherwise: build the write set by descent, insert
into the leaf (returning `false` on a duplicate), run the unconditional split
cascade, then the root-growth epilogue. `none` models a failed page fetch. -/
def insert (st : TreeState) (key value : Int) : Option (Bool × TreeState) :=
  if st.rootPageId = INVALID then
    let newId := st.nextPageId
    let L0 := leafInit st
    let L1 := { L0 with size := 1
                        keys := setSlot L0.keys 0 key
                        vals := setSlot L0.vals 0 value
                        next := INVALID }
    some (true, { st with pages := upsert st.pages newId (.leaf L1)
                          nextPageId := newId + 1
                          rootPageId := newId })
  else
    match buildWriteSet st key with
    | none => none
    | some ws =>
      match ws.getLast? with
      | none => none
      | some leafId =>
        match fetchPage st leafId with
        | some (.leaf L) =>
          let res := insertAtLeaf st.junk L key value
          let st2 := setPage st leafId (.leaf res.2)
          if res.1 = false then some (false, st2)
          else
            match cascadeLoop (ws.length + 1) st2 ws with
            | none => none
            | some (st3, ws2) =>
              match rootGrowth st3 ws2 with
              | none => none
              | some st4 => some (true, st4)
        | _ => none

/-- `BPlusTree::GetValue` (lines 63–87): read the root id from the header and
fetch it — with *no* check that it is a valid page id — then descend by
`BinaryFind` to a leaf; found iff `pos ≥ 0` and the key at `pos` compares
equal. Returns `some (found, value?)`, or `none` when a page fetch fails
(which is what happens on an empty tree, whose root id is `INVALID`). -/
def getValueAux (st : TreeState) (key : Int) : Nat → Int → Option (Bool × Option Int)
  | 0, _ => none
  | fuel+1, x =>
    match fetchPage st x with
    | none => none
    | some (.internal nd) =>
      getValueAux st key fuel
        (keyAtD st.junk nd.children
          (binaryFindInternal (keyAtD st.junk nd.keys) nd.size key))
    | some (.leaf L) =>
      let pos := binaryFindLeaf (keyAtD st.junk L.keys) L.size key
      if pos < 0 ∨ keyAtD st.junk L.keys pos ≠ key then some (false, none)
      else some (true, some (keyAtD st.junk L.vals pos))

def getValue (st : TreeState) (key : Int) : Option (Bool × Option Int) :=
  getValueAux st key (st.pages.length + 1) st.rootPageId

/-- `BPlusTree::Remove` (lines 192–195). The body is empty
(`// Your code here`): the state is returned unchanged. -/
def remove (st : TreeState) (_key : Int) : TreeState := st

/-- `BPlusTree::Begin(const KeyType&)` (lines 378–404): empty tree gives the
end iterator `(-1, -1)`; otherwise descend by `BinaryFind`; at the leaf,
`slot = BinaryFind(leaf, key)`, and the iterator is `(leaf_page, slot)`
unless `slot == -1`, in which case the end iterator is returned. -/
def beginKAux (st : TreeState) (key : Int) : Nat → Int → Option (Int × Int)
  | 0, _ => none
  | fuel+1, x =>
    match fetchPage st x with
    | none => none
    | some (.internal nd) =>
      let slot := binaryFindInternal (keyAtD st.junk nd.keys) nd.size key
      if slot = -1 then some (-1, -1)
      else beginKAux st key fuel (keyAtD st.junk nd.children slot)
    | some (.leaf L) =>
      let slot := binaryFindLeaf (keyAtD st.junk L.keys) L.size key
      if slot ≠ -1 then some (x, slot) else some (-1, -1)

def beginK (st : TreeState) (key : Int) : Option (Int × Int) :=
  if st.rootPageId = INVALID then some (-1, -1)
  else beginKAux st key (st.pages.length + 1) st.rootPageId

/-- The state right after the constructor ran: no node pages, header's
`root_page_id_ = INVALID`. `junk` is the uninitialized-memory value fresh
pages hold (the concrete theorems below use `0`, matching zero-filled
frames). -/
def mkEmpty (junk leafMax internalMax : Int) : TreeState :=
  { pages := []
    nextPageId := 1
    rootPageId := INVALID
    junk := junk
    leafMax := leafMax
    internalMax := internalMax }

/-- Run a sequence of inserts, collecting each call's boolean result. -/
def insertList (st : TreeState) : List (Int × Int) → Option (List Bool × TreeState)
  | [] => some ([], st)
  | (k, v) :: rest =>
    match insert st k v with
    | none => none
    | some (b, st2) =>
      match insertList st2 rest with
      | none => none
      | some (bs, st3) => some (b :: bs, st3)

/-- The size of the node stored at a page id. -/
def pageSize (st : TreeState) (pid : Int) : Option Int :=
  (fetchPage st pid).map BNode.size

/-- The child pointer stored at slot `i` of the internal node at `pid`. -/
def childAt (st : TreeState) (pid i : Int) : Option Int :=
  match fetchPage st pid with
  | some (.internal I) => some (keyAtD st.junk I.children i)
  | _ => none

/-- The leaf at `pid` as `InsertAt` leaves it (used to observe the leaf's
size at the moment the split cascade starts). -/
def leafAfterInsertAt (st : TreeState) (pid key value : Int) : Option LeafNode :=
  match fetchPage st pid with
  | some (.leaf L) => some (insertAtLeaf st.junk L key value).2
  | _ => none

/-- Strictly ascending keys on the slots `l0 ≤ i < n` of a page, phrased with
bounded `Nat` quantifiers so concrete instances are decidable. -/
def SortedFrom (junk : Int) (ks : List Int) (l0 : Int) (n : Nat) : Prop :=
  ∀ j : Nat, j < n → ∀ i : Nat, i < j → l0 ≤ (i : Int) →
    keyAtD junk ks i < keyAtD junk ks j

instance (junk : Int) (ks : List Int) (l0 : Int) (n : Nat) :
    Decidable (SortedFrom junk ks l0 n) := by
  unfold SortedFrom; infer_instance

/-!
## Concrete scenario states

All use `leaf_max_size = internal_max_size = 4` (the sizes of the spec's §8
scenarios) and zero-filled fresh pages (`junk = 0`).
-/

def stEmpty : TreeState := mkEmpty 0 4 4

/-- Inserting `10, 20, 30, 40` (values `1, 2, 3, 4`) into the empty tree,
keeping each call's boolean result. -/
def seq4 : Option (List Bool × TreeState) :=
  insertList stEmpty [(10, 1), (20, 2), (30, 3), (40, 4)]

def st4 : Option TreeState := seq4.map Prod.snd

/-- The state after additionally inserting `50` (value `5`). -/
def st5 : Option TreeState := st4.bind fun st => (insert st 50 5).map Prod.snd

/-- The single-leaf tree obtained by inserting `10` (value `100`) into the
empty tree. -/
def st1 : Option TreeState := (insert stEmpty 10 100).map Prod.snd

/-- A standalone full leaf `[10,20,30,40]` (values `1..4`) at page 7, for
exercising `SplitPage(LeafPage*)` directly. -/
def stFullLeaf : TreeState :=
  { pages := [(7, .leaf { keys := [10, 20, 30, 40], vals := [1, 2, 3, 4],
                          size := 4, maxSize := 4, next := -1 })]
    nextPageId := 8
    rootPageId := 7
    junk := 0
    leafMax := 4
    internalMax := 4 }

/-!
## Properties of the binary-search loop
-/

theorem bfLoop_bounds (f : Int → Int) (key : Int) :
    ∀ (fuel : Nat) (l r : Int), l ≤ r →
      l ≤ bfLoop f key fuel l r ∧ bfLoop f key fuel l r ≤ r := by
  intro fuel
  induction fuel with
  | zero => intro l r h; exact ⟨h, le_refl r⟩
  | succ n ih =>
    intro l r h
    by_cases hc : l < r
    · have hm1 : l < (l + r + 1) / 2 := by omega
      have hm2 : (l + r + 1) / 2 ≤ r := by omega
      by_cases hf : f ((l + r + 1) / 2) ≤ key
      · have hrec := ih ((l + r + 1) / 2) r hm2
        simp only [bfLoop, if_pos hc, if_pos hf]
        exact ⟨by omega, hrec.2⟩
      · have hrec := ih l ((l + r + 1) / 2 - 1) (by omega)
        simp only [bfLoop, if_pos hc, if_neg hf]
        exact ⟨hrec.1, by omega⟩
    · simp only [bfLoop, if_neg hc]
      exact ⟨h, le_refl r⟩

theorem bfLoop_congr (f g : Int → Int) (key : Int) :
    ∀ (fuel : Nat) (l r : Int),
      (∀ i : Int, l ≤ i → i ≤ r → f i = g i) →
      bfLoop f key fuel l r = bfLoop g key fuel l r := by
  intro fuel
  induction fuel with
  | zero => intro l r _; rfl
  | succ n ih =>
    intro l r hagree
    by_cases hc : l < r
    · have hm1 : l < (l + r + 1) / 2 := by omega
      have hm2 : (l + r + 1) / 2 ≤ r := by omega
      have hfg : f ((l + r + 1) / 2) = g ((l + r + 1) / 2) :=
        hagree _ (by omega) (by omega)
      simp only [bfLoop, if_pos hc, hfg]
      by_cases hg : g ((l + r + 1) / 2) ≤ key
      · simp only [if_pos hg]
        exact ih _ r fun i h1 h2 => hagree i (by omega) h2
      · simp only [if_neg hg]
        exact ih l _ fun i h1 h2 => hagree i h1 (by omega)
    · simp only [bfLoop, if_neg hc]

/-- The loop invariant of `bfLoop`: starting from `[l, r] ⊆ [l0, size)` with
every slot above `r` strictly greater than `key` and `f l ≤ key` unless
`l = l0`, the loop converges to an index with the same two properties. -/
theorem bfLoop_spec (f : Int → Int) (key size l0 : Int)
    (hsort : ∀ i j : Int, l0 ≤ i → i < j → j < size → f i < f j) :
    ∀ (fuel : Nat) (l r : Int), l0 ≤ l → l ≤ r → r < size →
      (r - l).toNat < fuel →
      (l = l0 ∨ f l ≤ key) →
      (∀ i : Int, r < i → i < size → key < f i) →
      l ≤ bfLoop f key fuel l r ∧ bfLoop f key fuel l r ≤ r ∧
        (bfLoop f key fuel l r = l0 ∨ f (bfLoop f key fuel l r) ≤ key) ∧
        ∀ i : Int, bfLoop f key fuel l r < i → i < size → key < f i := by
  intro fuel
  induction fuel with
  | zero => intro l r _ _ _ hfuel _ _; omega
  | succ n ih =>
    intro l r hl0 hlr hr hfuel hinv hup
    by_cases hc : l < r
    · have hm1 : l < (l + r + 1) / 2 := by omega
      have hm2 : (l + r + 1) / 2 ≤ r := by omega
      by_cases hf : f ((l + r + 1) / 2) ≤ key
      · have hrec := ih ((l + r + 1) / 2) r (by omega) hm2 hr (by omega)
          (Or.inr hf) hup
        simp only [bfLoop, if_pos hc, if_pos hf]
        exact ⟨by omega, hrec.2.1, hrec.2.2.1, hrec.2.2.2⟩
      · have hup2 : ∀ i : Int, (l + r + 1) / 2 - 1 < i → i < size → key < f i := by
          intro i h1 h2
          rcases eq_or_lt_of_le (by omega : (l + r + 1) / 2 ≤ i) with he | hlt
          · rw [← he]; exact lt_of_not_le hf
          · exact lt_trans (lt_of_not_le hf) (hsort _ i (by omega) hlt h2)
        have hrec := ih l ((l + r + 1) / 2 - 1) hl0 (by omega) (by omega)
          (by omega) hinv hup2
        simp only [bfLoop, if_pos hc, if_neg hf]
        exact ⟨hrec.1, by omega, hrec.2.2.1, hrec.2.2.2⟩
    · have hlr2 : l = r := by omega
      simp only [bfLoop, if_neg hc]
      exact ⟨le_of_eq hlr2, le_refl r, hlr2 ▸ hinv, hup⟩

/-- Bridge from the decidable `SortedFrom` to the `Int`-indexed form the loop
lemma uses. -/
theorem sortedFrom_int (junk : Int) (ks : List Int) (l0 size : Int) (h0 : 0 ≤ l0)
    (h : SortedFrom junk ks l0 size.toNat) :
    ∀ i j : Int, l0 ≤ i → i < j → j < size →
      keyAtD junk ks i < keyAtD junk ks j := by
  intro i j hi hij hj
  have hi0 : 0 ≤ i := le_trans h0 hi
  have hj0 : 0 ≤ j := by omega
  have hh := h j.toNat (by omega) i.toNat (by omega) (by omega)
  rwa [Int.toNat_of_nonneg hi0, Int.toNat_of_nonneg hj0] at hh

/-- The internal-node binary search reads only the keys at slots
`1 .. size-1`: its result is unchanged under any reinterpretation of the page
that agrees on those slots. -/
theorem binaryFindInternal_congr (f g : Int → Int) (size key : Int)
    (h2 : 2 ≤ size)
    (hagree : ∀ i : Int, 1 ≤ i → i ≤ size - 1 → f i = g i) :
    binaryFindInternal f size key = binaryFindInternal g size key := by
  have hcongr : bfLoop f key (size.toNat + 1) 1 (size - 1) =
      bfLoop g key (size.toNat + 1) 1 (size - 1) :=
    bfLoop_congr f g key (size.toNat + 1) 1 (size - 1) hagree
  have hb := bfLoop_bounds g key (size.toNat + 1) 1 (size - 1) (by omega)
  have hfg : f (bfLoop g key (size.toNat + 1) 1 (size - 1)) =
      g (bfLoop g key (size.toNat + 1) 1 (size - 1)) :=
    hagree _ hb.1 hb.2
  simp only [binaryFindInternal, hcongr, hfg]

/-!
## Claim theorems
-/

/-- **C8** (confirmed). For every leaf page (keys strictly increasing on the
occupied slots, as leaf pages are) and every key, `BinaryFind(const LeafPage*)`
returns the largest index `r` with `key_at(r) ≤ key`, or `-1` if no slot's key
is `≤ key`; the result always lies in `[-1, size-1]`; and the key is present
in the leaf exactly when the slot at the returned index compares equal. -/
theorem C8_leaf_binary_search_correct (junk key : Int) (ks : List Int)
    (size : Int) (h0 : 0 ≤ size) (hsort : SortedFrom junk ks 0 size.toNat) :
    (-1 ≤ binaryFindLeaf (keyAtD junk ks) size key ∧
       binaryFindLeaf (keyAtD junk ks) size key ≤ size - 1) ∧
    (binaryFindLeaf (keyAtD junk ks) size key = -1 ↔
       ∀ i : Int, 0 ≤ i → i < size → key < keyAtD junk ks i) ∧
    (0 ≤ binaryFindLeaf (keyAtD junk ks) size key →
       keyAtD junk ks (binaryFindLeaf (keyAtD junk ks) size key) ≤ key ∧
       ∀ i : Int, binaryFindLeaf (keyAtD junk ks) size key < i → i < size →
         ¬ keyAtD junk ks i ≤ key) ∧
    ((∃ i : Int, 0 ≤ i ∧ i < size ∧ keyAtD junk ks i = key) ↔
       (0 ≤ binaryFindLeaf (keyAtD junk ks) size key ∧
        keyAtD junk ks (binaryFindLeaf (keyAtD junk ks) size key) = key)) := by
  have hsorted := sortedFrom_int junk ks 0 size le_rfl hsort
  rcases eq_or_lt_of_le h0 with hz | hpos
  · have hr : binaryFindLeaf (keyAtD junk ks) size key = -1 := by
      rw [← hz]
      simp only [binaryFindLeaf, bfLoop]
      norm_num
    rw [hr]
    refine ⟨⟨le_refl _, by omega⟩, ?_, ?_, ?_⟩
    · constructor
      · intro _ i h1 h2; omega
      · intro _; rfl
    · intro h; omega
    · constructor
      · rintro ⟨i, h1, h2, _⟩; omega
      · rintro ⟨h1, _⟩; omega
  · obtain ⟨hb1, hb2, hdisj, hup⟩ :=
      bfLoop_spec (keyAtD junk ks) key size 0 hsorted (size.toNat + 1) 0
        (size - 1) le_rfl (by omega) (by omega) (by omega) (Or.inl rfl)
        (by intro i h1 h2; omega)
    have hunf : binaryFindLeaf (keyAtD junk ks) size key =
        if 0 ≤ bfLoop (keyAtD junk ks) key (size.toNat + 1) 0 (size - 1) ∧
           key < keyAtD junk ks
             (bfLoop (keyAtD junk ks) key (size.toNat + 1) 0 (size - 1)) then -1
        else bfLoop (keyAtD junk ks) key (size.toNat + 1) 0 (size - 1) := rfl
    set r0 := bfLoop (keyAtD junk ks) key (size.toNat + 1) 0 (size - 1) with hr0d
    by_cases hcond : 0 ≤ r0 ∧ key < keyAtD junk ks r0
    · rw [hunf, if_pos hcond]
      have hz0 : r0 = 0 := by
        rcases hdisj with h | h
        · exact h
        · exact absurd h (not_le.mpr hcond.2)
      have hall : ∀ i : Int, 0 ≤ i → i < size → key < keyAtD junk ks i := by
        intro i h1 h2
        rcases eq_or_lt_of_le h1 with he | hlt
        · rw [← he]; rw [hz0] at hcond; exact hcond.2
        · exact hup i (by omega) h2
      refine ⟨⟨le_refl _, by omega⟩, ?_, ?_, ?_⟩
      · exact ⟨fun _ => hall, fun _ => rfl⟩
      · intro h; omega
      · constructor
        · rintro ⟨i, h1, h2, heq⟩
          exact absurd heq (ne_of_gt (hall i h1 h2))
        · rintro ⟨h1, _⟩; omega
    · rw [hunf, if_neg hcond]
      have hfr : keyAtD junk ks r0 ≤ key := by
        rcases not_and_or.mp hcond with h | h
        · exact absurd hb1 h
        · exact not_lt.mp h
      refine ⟨⟨by omega, hb2⟩, ?_, ?_, ?_⟩
      · constructor
        · intro h; omega
        · intro hall
          exact absurd (hall r0 hb1 (by omega)) (not_lt.mpr hfr)
      · intro _
        refine ⟨hfr, fun i h1 h2 hle => absurd (hup i h1 h2) (not_lt.mpr hle)⟩
      · constructor
        · rintro ⟨i, h1, h2, heq⟩
          refine ⟨hb1, ?_⟩
          rcases lt_trichotomy i r0 with hlt | he | hgt
          · have := hsorted i r0 h1 hlt (by omega)
            rw [heq] at this
            exact absurd hfr (not_le.mpr this)
          · rw [← he]; exact heq
          · have := hup i hgt h2
            rw [heq] at this
            omega
        · rintro ⟨h1, heq⟩
          exact ⟨r0, hb1, by omega, heq⟩

/-- Witness for C8: on the sorted leaf `[10, 20, 30]` (size 3) and key 25
the binary search result lies in `[-1, 2]` (it is in fact 1). -/
theorem C8_leaf_binary_search_correct_witness :
    -1 ≤ binaryFindLeaf (keyAtD 0 [10, 20, 30]) 3 25 ∧
      binaryFindLeaf (keyAtD 0 [10, 20, 30]) 3 25 ≤ 3 - 1 :=
  (C8_leaf_binary_search_correct 0 25 [10, 20, 30] 3 (by decide) (by decide)).1

/-- **C9** (confirmed). For every internal page (`size ≥ 2`, as internal
pages always have, keys strictly increasing on slots `1..size-1`) and every
key, `BinaryFind(const InternalPage*)` consults only the keys at slots
`1..size-1` (its result is invariant under changing anything else, slot 0's
key included), and it returns the largest index `r ≥ 1` with
`key_at(r) ≤ key`, or `0` exactly when `key < key_at(1)`; the returned index
is the one `Insert`/`GetValue` descend into via `ValueAt`. -/
theorem C9_internal_binary_search_correct (junk key : Int) (ks : List Int)
    (size : Int) (h2 : 2 ≤ size) (hsort : SortedFrom junk ks 1 size.toNat) :
    (0 ≤ binaryFindInternal (keyAtD junk ks) size key ∧
       binaryFindInternal (keyAtD junk ks) size key ≤ size - 1) ∧
    (binaryFindInternal (keyAtD junk ks) size key = 0 ↔
       key < keyAtD junk ks 1) ∧
    (1 ≤ binaryFindInternal (keyAtD junk ks) size key →
       keyAtD junk ks (binaryFindInternal (keyAtD junk ks) size key) ≤ key ∧
       ∀ i : Int, binaryFindInternal (keyAtD junk ks) size key < i → i < size →
         ¬ keyAtD junk ks i ≤ key) ∧
    (∀ (junk2 : Int) (ks2 : List Int),
       (∀ i : Int, 1 ≤ i → i ≤ size - 1 → keyAtD junk2 ks2 i = keyAtD junk ks i) →
       binaryFindInternal (keyAtD junk2 ks2) size key =
         binaryFindInternal (keyAtD junk ks) size key) := by
  have hsorted := sortedFrom_int junk ks 1 size (by omega) hsort
  obtain ⟨hb1, hb2, hdisj, hup⟩ :=
    bfLoop_spec (keyAtD junk ks) key size 1 hsorted (size.toNat + 1) 1
      (size - 1) le_rfl (by omega) (by omega) (by omega) (Or.inl rfl)
      (by intro i h1 h2; omega)
  have hunf : binaryFindInternal (keyAtD junk ks) size key =
      if bfLoop (keyAtD junk ks) key (size.toNat + 1) 1 (size - 1) = -1 ∨
         key < keyAtD junk ks
           (bfLoop (keyAtD junk ks) key (size.toNat + 1) 1 (size - 1)) then 0
      else bfLoop (keyAtD junk ks) key (size.toNat + 1) 1 (size - 1) := rfl
  set r0 := bfLoop (keyAtD junk ks) key (size.toNat + 1) 1 (size - 1) with hr0d
  have hcongr : ∀ (junk2 : Int) (ks2 : List Int),
      (∀ i : Int, 1 ≤ i → i ≤ size - 1 → keyAtD junk2 ks2 i = keyAtD junk ks i) →
      binaryFindInternal (keyAtD junk2 ks2) size key =
        binaryFindInternal (keyAtD junk ks) size key := by
    intro junk2 ks2 hagree
    exact binaryFindInternal_congr _ _ size key h2 hagree
  have hmain : (0 ≤ binaryFindInternal (keyAtD junk ks) size key ∧
        binaryFindInternal (keyAtD junk ks) size key ≤ size - 1) ∧
      (binaryFindInternal (keyAtD junk ks) size key = 0 ↔
        key < keyAtD junk ks 1) ∧
      (1 ≤ binaryFindInternal (keyAtD junk ks) size key →
        keyAtD junk ks (binaryFindInternal (keyAtD junk ks) size key) ≤ key ∧
        ∀ i : Int, binaryFindInternal (keyAtD junk ks) size key < i →
          i < size → ¬ keyAtD junk ks i ≤ key) := by
    by_cases hcond : r0 = -1 ∨ key < keyAtD junk ks r0
    · rw [hunf, if_pos hcond]
      have hklt : key < keyAtD junk ks r0 := by
        rcases hcond with h | h
        · omega
        · exact h
      have hz1 : r0 = 1 := by
        rcases hdisj with h | h
        · exact h
        · exact absurd h (not_le.mpr hklt)
      rw [hz1] at hklt
      refine ⟨⟨le_refl _, by omega⟩, ⟨fun _ => hklt, fun _ => rfl⟩, ?_⟩
      intro h; omega
    · rw [hunf, if_neg hcond]
      have hfr : keyAtD junk ks r0 ≤ key := by
        rcases not_or.mp hcond with ⟨_, h⟩
        exact not_lt.mp h
      refine ⟨⟨by omega, hb2⟩, ?_, ?_⟩
      · constructor
        · intro h; omega
        · intro hk1
          rcases eq_or_lt_of_le hb1 with he | hgt
          · rw [← he] at hfr; omega
          · have := hsorted 1 r0 le_rfl hgt (by omega)
            omega
      · intro _
        refine ⟨hfr, fun i h1 h2 hle => absurd (hup i h1 h2) (not_lt.mpr hle)⟩
  exact ⟨hmain.1, hmain.2.1, hmain.2.2, hcongr⟩

/-- Witness for C9: on the internal page `[0, 10, 20, 30]` (size 4, slot 0 a
sentinel) and key 25 the result lies in `[0, 3]` (it is in fact 2). -/
theorem C9_internal_binary_search_correct_witness :
    0 ≤ binaryFindInternal (keyAtD 0 [0, 10, 20, 30]) 4 25 ∧
      binaryFindInternal (keyAtD 0 [0, 10, 20, 30]) 4 25 ≤ 4 - 1 :=
  (C9_internal_binary_search_correct 0 25 [0, 10, 20, 30] 4 (by decide)
    (by decide)).1

/-- **C1** (code bug). After inserting `10,20,30,40`, `Insert(50)` retains
the write set `[root 2, leaf 3]`; the leaf holds size 3 after the pair is
placed — strictly below its `max_size` 4 — yet the cascade (which loops on
`write_set_.size() > 1` with no fullness test) splits it anyway: in the final
state page 3 has size 1 and a new right sibling, page 4, exists. -/
theorem C1_cascade_splits_nonfull_leaf :
    (st4.bind fun st => buildWriteSet st 50) = some [2, 3] ∧
    (st4.bind fun st => (leafAfterInsertAt st 3 50 5).map LeafNode.size) =
      some 3 ∧
    (st4.bind fun st => (fetchPage st 3).map BNode.maxSize) = some 4 ∧
    (3 : Int) < 4 ∧
    (st5.bind fun st => pageSize st 3) = some 1 ∧
    (st5.bind fun st => fetchPage st 4).isSome = true := by decide

/-- **C2** (code bug). On the empty tree (header's `root_page_id` equal to
`INVALID`), `GetValue` does not return "not found": it fetches the page with
id `INVALID` from the buffer pool (line 71 runs with `x = INVALID` because
the `INVALID` check the spec requires is missing), which the model reports as
`none` (a failed fetch) rather than `some (false, _)`. -/
theorem C2_get_on_empty_fetches_invalid_page :
    stEmpty.rootPageId = INVALID ∧ getValue stEmpty 0 = none ∧
      getValue stEmpty 0 ≠ some (false, none) := by decide

/-- **C3** (code bug). Splitting the full leaf `[10,20,30,40]` (values
`1..4`, `max_size = 4`, `lsize = 2`, `rsize = 2`): the separator 30 and the
values of slots `[2, 4)` are produced as the claim states, but the *key* of
slot `lsize` is never copied into `R[0]` (the copy loop's `i > lsize` guard
skips it), so `R`'s slot-0 key keeps the fresh page's uninitialized value 0
instead of 30, and the promoted separator 30 differs from `R.key_at(0)`. -/
theorem C3_leaf_split_skips_boundary_key :
    ((splitLeafPage stFullLeaf 7).map fun r => (r.1, r.2.1)) = some (30, 8) ∧
    ((splitLeafPage stFullLeaf 7).bind fun r => fetchPage r.2.2 8) =
      some (.leaf { keys := [0, 40, 0, 0], vals := [3, 4, 0, 0],
                    size := 2, maxSize := 4, next := -1 }) ∧
    ((splitLeafPage stFullLeaf 7).bind fun r => fetchPage r.2.2 7) =
      some (.leaf { keys := [10, 20, 30, 40], vals := [1, 2, 3, 4],
                    size := 2, maxSize := 4, next := 8 }) ∧
    keyAtD 0 [0, 40, 0, 0] 0 ≠ 30 := by decide

/-- **C4** (code bug). After the inserts `10,20,30,40,50` complete, page 3 —
a non-root leaf (the root is page 2 and routes to 3 through child slot 1) —
has size 1, strictly below `min_size = ceil(4/2) = 2`: the occupancy
invariant does not hold at rest. -/
theorem C4_occupancy_violated_after_insert :
    (st5.map TreeState.rootPageId) = some 2 ∧
    (st5.bind fun st => (fetchPage st 2).map BNode.isLeaf) = some false ∧
    (st5.bind fun st => childAt st 2 1) = some 3 ∧
    (st5.bind fun st => pageSize st 3) = some 1 ∧
    (1 : Int) < (4 + 1) / 2 := by decide

/-- **C5** (code bug). Both halves of the round-trip law fail on the code:
after the unique-key inserts `10,20,30,40` (each reported successful),
`get(30)` already returns "not found" (the split lost the boundary key); and
since `Remove` is an empty stub, after `insert(10); remove(10)` a `get(10)`
still returns the inserted value instead of false. -/
theorem C5_roundtrip_fails :
    (seq4.map Prod.fst) = some [true, true, true, true] ∧
    (st4.bind fun st => getValue st 30) = some (false, none) ∧
    (st1.map fun st => getValue (remove st 10) 10) =
      some (some (true, some 100)) := by decide

/-- **C6** (code bug). All four inserts of `10,20,30,40` report success, yet
inserting key 30 *again* also returns `true` — not `false` — because the
buggy leaf split left the right sibling's slot-0 key uninitialized, so the
duplicate check compares 30 against the junk value instead of the stored
copy of 30. -/
theorem C6_duplicate_insert_returns_true :
    (seq4.map Prod.fst) = some [true, true, true, true] ∧
    (st4.bind fun st => (insert st 30 999).map Prod.fst) = some true := by
  decide

/-- **C7** (code bug). On the single-leaf tree holding key 10, `Begin(5)`
returns the end iterator `(-1, -1)` even though the live key 10 satisfies
`10 ≥ 5`; and `Begin(15)` returns the iterator `(page 1, slot 0)`, which
dereferences to key 10 — a key strictly *below* 15 — instead of the end
iterator (no live key is `≥ 15`). The leaf search used is "largest key ≤ k",
not the "smallest key ≥ k" the claim requires, and `next` is never
followed. -/
theorem C7_begin_key_wrong_position :
    (st1.bind fun st => fetchPage st 1) =
      some (.leaf { keys := [10, 0, 0, 0], vals := [100, 0, 0, 0],
                    size := 1, maxSize := 4, next := -1 }) ∧
    (st1.bind fun st => beginK st 5) = some (-1, -1) ∧
    (st1.bind fun st => beginK st 15) = some (1, 0) := by decide

/-- **C10** (code bug). Inserting key 5 into the single-leaf tree holding
key 10: the descent's write set ends at leaf page 1 (size 1), and the
`BinaryFind` result `InsertAt` uses for its duplicate check is `-1` — outside
`[0, size-1]` — so the `KeyAt(pos)` read at line 286 is an out-of-bounds read
at index `-1`, and it is reachable by any insert of a key smaller than every
key in the routed leaf. -/
theorem C10_insert_duplicate_check_reads_minus_one :
    (st1.bind fun st => buildWriteSet st 5) = some [1] ∧
    (st1.bind fun st => pageSize st 1) = some 1 ∧
    binaryFindLeaf (keyAtD 0 [10, 0, 0, 0]) 1 5 = -1 ∧
    ¬ (0 : Int) ≤ -1 := by decide

end BPlus
